import Mathlib

/-!
Verification development for the suparena/entitystore repository.

The definitions below are a shallow embedding of the Go source:
  * the template engine (expandMacros / expandStringKey in datastore/ddb/dynamodb.go),
  * the typed store point operations Put / GetOne / Delete (datastore/ddb/dynamodb.go)
    over an abstract single-table state keyed by the (PK, SK) string pair,
  * the query request construction of Query and streamWorker,
  * the fluent GSI query builder Build (datastore/ddb/gsi_query.go),
  * the streaming engine streamWorker / queryWithRetry / processItem
    (datastore/ddb/stream.go), modelled against a finite script of provider
    responses, with channels, cancellation and wall-clock time elided,
  * the two registries (registry/type_registry.go).

DynamoDB attribute values are modelled by the inductive type AttrVal; an item
(attribute map) is an association list whose observable content is given by
lookupA, matching Go map semantics (later assignment wins).  The payloads of
list / nested-map attributes are opaque to every operation modelled here and
are therefore not carried.
-/

namespace EntityStore

/-- A DynamoDB attribute value (the tagged union types.AttributeValue).
List and nested-map values are opaque to key expansion and carry no payload. -/
inductive AttrVal where
  | S (s : String)
  | N (s : String)
  | BOOL (b : Bool)
  | Null
  | B (bytes : List Nat)
  | SS (l : List String)
  | NS (l : List String)
  | BS (l : List (List Nat))
  | L
  | M
  deriving DecidableEq, Repr

/-- An attribute map: item representation used by the store. -/
abbrev AttrMap := List (String × AttrVal)

/-- Observable content of an attribute map (first binding wins; insertions
prepend, so this matches Go map assignment semantics). -/
def lookupA (k : String) : AttrMap → Option AttrVal
  | [] => none
  | (k2, v) :: t => if k2 = k then some v else lookupA k t

/-- Go map assignment av[k] = v, observed through lookupA. -/
def insertA (k : String) (v : AttrVal) (m : AttrMap) : AttrMap := (k, v) :: m

/-- Go delete(item, k): removes every binding of k. -/
def eraseA (k : String) : AttrMap → AttrMap
  | [] => []
  | (k2, v) :: t => if k2 = k then eraseA k t else (k2, v) :: eraseA k t

end EntityStore

namespace EntityStore

/-! ### Template engine (expandMacros, dynamodb.go lines 31-89) -/

/-- Stringification of one attribute value, the switch inside expandMacros:
string and number values yield their text, booleans print as true/false,
null, binary, sets and every other tag yield the empty string. -/
def stringifyAttr : AttrVal → List Char
  | .S s => s.data
  | .N s => s.data
  | .BOOL b => if b then "true".data else "false".data
  | .Null => []
  | .B _ => []
  | .SS _ => []
  | .NS _ => []
  | .BS _ => []
  | .L => []
  | .M => []

/-- Stringification of an attribute lookup; an unknown attribute name
substitutes the empty string. -/
def stringifyOpt : Option AttrVal → List Char
  | none => []
  | some v => stringifyAttr v

/-- Split a character list at the first closing brace: returns the segment
before it and the remainder after it, or none when no closing brace occurs. -/
def splitAtClose : List Char → Option (List Char × List Char)
  | [] => none
  | c :: t =>
    if c = '}' then some ([], t)
    else match splitAtClose t with
      | none => none
      | some (a, b) => some (c :: a, b)

theorem splitAtClose_length {cs a b : List Char} (h : splitAtClose cs = some (a, b)) :
    a.length + b.length + 1 = cs.length := by
  induction cs generalizing a b with
  | nil => simp [splitAtClose] at h
  | cons c t ih =>
    by_cases hc : c = '}'
    · simp [splitAtClose, hc] at h
      obtain ⟨ha, hb⟩ := h
      subst ha; subst hb; simp
    · simp only [splitAtClose, if_neg hc] at h
      cases hs : splitAtClose t with
      | none => rw [hs] at h; simp at h
      | some p =>
        rw [hs] at h
        obtain ⟨a2, b2⟩ := p
        simp at h
        obtain ⟨ha, hb⟩ := h
        subst ha; subst hb
        have := ih hs
        simp [List.length_cons]
        omega

/-- One left-to-right scan of the regular expression \x7b([^\x7d]+)\x7d with
replacement function repl, fuelled so that evaluation is structural.  A
brace-delimited segment with a non-empty body is a match and is replaced;
an immediately closed brace pair or an unclosed brace is literal text, and
the scan restarts one character later, as the regex engine does. -/
def scanExpand (repl : List Char → List Char) : Nat → List Char → List Char
  | _, [] => []
  | 0, cs => cs
  | fuel + 1, c :: rest =>
    if c = '{' then
      match splitAtClose rest with
      | none => c :: scanExpand repl fuel rest
      | some (name, after) =>
        if name = [] then c :: scanExpand repl fuel rest
        else repl name ++ scanExpand repl fuel after
    else c :: scanExpand repl fuel rest

/-- Template expansion over a character list: fuel one step per character. -/
def expandT (repl : List Char → List Char) (cs : List Char) : List Char :=
  scanExpand repl cs.length cs

/-- Replacement used by expandMacros: look the macro body up in the source
attribute map and stringify. -/
def replAttr (av : AttrMap) (name : List Char) : List Char :=
  stringifyOpt (lookupA (String.mk name) av)

/-- Replacement used by expandStringKey: every macro becomes the given key. -/
def replConst (key : String) (_ : List Char) : List Char := key.data

/-- expandMacros (dynamodb.go): expand every template of the index map
against the marshalled attribute map of the entity. -/
def expandMacros (indexMap : List (String × String)) (av : AttrMap) :
    List (String × String) :=
  indexMap.map (fun p => (p.1, String.mk (expandT (replAttr av) p.2.data)))

/-- expandStringKey (dynamodb.go lines 411-419): replace every macro
occurrence in each template with the provided key. -/
def expandStringKey (indexMap : List (String × String)) (key : String) :
    List (String × String) :=
  indexMap.map (fun p => (p.1, String.mk (expandT (replConst key) p.2.data)))

/-- String-keyed lookup in an expanded index map (first binding wins;
index maps come from Go maps, so keys are distinct in practice). -/
def lookupS (k : String) : List (String × String) → Option String
  | [] => none
  | (k2, v) :: t => if k2 = k then some v else lookupS k t

theorem scanExpand_nil {repl : List Char → List Char} (f : Nat) :
    scanExpand repl f [] = [] := by
  cases f <;> rfl

theorem scanExpand_fuel {repl : List Char → List Char} :
    ∀ n f g (cs : List Char), cs.length ≤ f → cs.length ≤ g → cs.length ≤ n →
      scanExpand repl f cs = scanExpand repl g cs := by
  intro n
  induction n with
  | zero =>
    intro f g cs _ _ hn
    have hcs : cs = [] := by
      cases cs with
      | nil => rfl
      | cons c t => simp at hn
    subst hcs
    rw [scanExpand_nil, scanExpand_nil]
  | succ n ih =>
    intro f g cs hf hg hn
    cases cs with
    | nil => rw [scanExpand_nil, scanExpand_nil]
    | cons c rest =>
      cases f with
      | zero => simp at hf
      | succ f =>
        cases g with
        | zero => simp at hg
        | succ g =>
          simp only [List.length_cons, Nat.succ_le_succ_iff] at hf hg hn
          by_cases hc : c = '{'
          · simp only [scanExpand, if_pos hc]
            cases hs : splitAtClose rest with
            | none => rw [ih f g rest hf hg hn]
            | some p =>
              obtain ⟨name, after⟩ := p
              by_cases hname : name = []
              · simp [hname, ih f g rest hf hg hn]
              · have hlen := splitAtClose_length hs
                have hafter : after.length ≤ n := by omega
                simp [hname, ih f g after (by omega) (by omega) hafter]
          · simp only [scanExpand, if_neg hc]
            rw [ih f g rest hf hg hn]

theorem expandT_eq_scan {repl : List Char → List Char} {f : Nat} {cs : List Char}
    (hf : cs.length ≤ f) : expandT repl cs = scanExpand repl f cs :=
  scanExpand_fuel cs.length cs.length f cs le_rfl hf le_rfl

/-- Literal text without an opening brace is copied verbatim. -/
theorem expandT_lit {repl : List Char → List Char} :
    ∀ lit : List Char, '{' ∉ lit → expandT repl lit = lit := by
  intro lit
  induction lit with
  | nil => intro _; rfl
  | cons c t ih =>
    intro h
    have hc : c ≠ '{' := fun hcc => h (hcc ▸ List.mem_cons_self c t)
    have ht : '{' ∉ t := fun htt => h (List.mem_cons_of_mem c htt)
    show scanExpand repl (c :: t).length (c :: t) = c :: t
    simp only [List.length_cons, scanExpand, if_neg hc]
    rw [← expandT_eq_scan le_rfl, ih ht]

theorem splitAtClose_exact {name rest : List Char} (h : '}' ∉ name) :
    splitAtClose (name ++ '}' :: rest) = some (name, rest) := by
  induction name with
  | nil => simp [splitAtClose]
  | cons c t ih =>
    have hc : c ≠ '}' := fun hcc => h (hcc ▸ List.mem_cons_self c t)
    have ht : '}' ∉ t := fun htt => h (List.mem_cons_of_mem c htt)
    simp [splitAtClose, if_neg hc, ih ht]

/-- The scan consumes a leading literal segment verbatim, replaces the
maximal brace-delimited macro after it, and continues with the rest. -/
theorem expandT_step {repl : List Char → List Char} :
    ∀ (lit name rest : List Char), '{' ∉ lit → name ≠ [] → '}' ∉ name →
      expandT repl (lit ++ '{' :: (name ++ '}' :: rest)) =
        lit ++ repl name ++ expandT repl rest := by
  intro lit
  induction lit with
  | nil =>
    intro name rest _ hname hbody
    show scanExpand repl _ _ = _
    simp only [List.nil_append, List.length_cons, scanExpand, if_pos rfl,
      splitAtClose_exact hbody, if_neg hname]
    rw [← expandT_eq_scan (by simp [List.length_append]; omega)]
    simp
  | cons c t ih =>
    intro name rest h hname hbody
    have hc : c ≠ '{' := fun hcc => h (hcc ▸ List.mem_cons_self c t)
    have ht : '{' ∉ t := fun htt => h (List.mem_cons_of_mem c htt)
    show scanExpand repl _ _ = _
    simp only [List.cons_append, List.length_cons, scanExpand, if_neg hc]
    rw [← expandT_eq_scan le_rfl]
    simp only [List.append_eq]
    rw [ih name rest ht hname hbody]

end EntityStore

namespace EntityStore

/-! ### Typed store point operations (dynamodb.go) -/

/-- The physical table state: items addressed by their (PK, SK) string pair. -/
abbrev Table := List ((String × String) × AttrMap)

/-- Item stored under a key, if any. -/
def lookupTbl (key : String × String) : Table → Option AttrMap
  | [] => none
  | (k2, it) :: t => if k2 = key then some it else lookupTbl key t

/-- PutItem upserts the item under its key. -/
def insertTbl (key : String × String) (item : AttrMap) (tbl : Table) : Table :=
  (key, item) :: tbl

/-- DeleteItem removes the item under the key; succeeds when absent. -/
def removeTbl (key : String × String) : Table → Table
  | [] => []
  | (k2, it) :: t => if k2 = key then removeTbl key t else (k2, it) :: removeTbl key t

/-- The item written by Put (dynamodb.go lines 200-230): the marshalled
attribute map of the entity with each expanded index-map field inserted as a
string attribute under the index-map field name.  No other attribute is
added; in particular no EntityType discriminator is injected. -/
def putItemAttrs (indexMap : List (String × String)) (entity : AttrMap) : AttrMap :=
  (expandMacros indexMap entity).foldl (fun acc p => insertA p.1 (.S p.2) acc) entity

/-- Put: build the item and issue PutItem.  The provider rejects an item
whose PK or SK attribute is absent or an empty string. -/
def putModel (indexMap : List (String × String)) (entity : AttrMap) (tbl : Table) :
    Except String Table :=
  match lookupA "PK" (putItemAttrs indexMap entity),
        lookupA "SK" (putItemAttrs indexMap entity) with
  | some (.S pk), some (.S sk) =>
    if pk = "" ∨ sk = "" then .error "ValidationException: empty key attribute"
    else .ok (insertTbl (pk, sk) (putItemAttrs indexMap entity) tbl)
  | _, _ => .error "ValidationException: missing key attribute"

/-- GetOne (dynamodb.go lines 127-164): expand the string key through the
index map, require non-empty PK and SK (buildKeyFromExpanded), issue GetItem
and return the item if present — when no item is found the code returns
nil, nil, modelled as .ok none. -/
def getOneModel (indexMap : List (String × String)) (key : String) (tbl : Table) :
    Except String (Option AttrMap) :=
  match lookupS "PK" (expandStringKey indexMap key),
        lookupS "SK" (expandStringKey indexMap key) with
  | some pk, some sk =>
    if pk = "" ∨ sk = "" then .error "expanded index map missing valid PK or SK"
    else .ok (lookupTbl (pk, sk) tbl)
  | _, _ => .error "expanded index map missing valid PK or SK"

/-- Delete (dynamodb.go lines 233-264): expand the key the same way and
issue DeleteItem, which succeeds whether or not the item exists. -/
def deleteModel (indexMap : List (String × String)) (key : String) (tbl : Table) :
    Except String Table :=
  match lookupS "PK" (expandStringKey indexMap key),
        lookupS "SK" (expandStringKey indexMap key) with
  | some pk, some sk =>
    if pk = "" ∨ sk = "" then .error "expanded index map missing valid PK or SK"
    else .ok (removeTbl (pk, sk) tbl)
  | _, _ => .error "expanded index map missing valid PK or SK"

/-! ### Lemmas about merged key attributes -/

theorem lookupA_insert_self (k : String) (v : AttrVal) (m : AttrMap) :
    lookupA k (insertA k v m) = some v := by
  simp [insertA, lookupA]

theorem lookupA_insert_other {k k2 : String} (h : k2 ≠ k) (v : AttrVal) (m : AttrMap) :
    lookupA k (insertA k2 v m) = lookupA k m := by
  simp [insertA, lookupA, h]

theorem lookupA_foldl_not_mem (k : String) :
    ∀ (l : List (String × String)) (m : AttrMap), k ∉ l.map Prod.fst →
      lookupA k (l.foldl (fun acc p => insertA p.1 (.S p.2) acc) m) = lookupA k m := by
  intro l
  induction l with
  | nil => intro m _; rfl
  | cons p t ih =>
    intro m hk
    simp only [List.map_cons, List.mem_cons] at hk
    push_neg at hk
    simp only [List.foldl_cons]
    rw [ih _ hk.2, lookupA_insert_other (fun he => hk.1 he.symm)]

theorem lookupA_foldl_mem (k : String) (v : String) :
    ∀ (l : List (String × String)) (m : AttrMap),
      (l.map Prod.fst).Nodup → (k, v) ∈ l →
      lookupA k (l.foldl (fun acc p => insertA p.1 (.S p.2) acc) m) = some (.S v) := by
  intro l
  induction l with
  | nil => intro m _ h; simp at h
  | cons p t ih =>
    intro m hnd hm
    simp only [List.map_cons, List.nodup_cons] at hnd
    simp only [List.foldl_cons]
    rcases List.mem_cons.mp hm with heq | htl
    · have hp : p = (k, v) := heq.symm
      subst hp
      have hk : k ∉ t.map Prod.fst := hnd.1
      rw [lookupA_foldl_not_mem k t _ hk, lookupA_insert_self]
    · exact ih _ hnd.2 htl

/-- lookupS on an expandMacros result recovers the expansion of the template
bound to the field (first binding; bindings come from a Go map). -/
theorem lookupS_expandMacros (k : String) (im : List (String × String)) (av : AttrMap) :
    lookupS k (expandMacros im av) =
      (lookupS k im).map (fun t => String.mk (expandT (replAttr av) t.data)) := by
  induction im with
  | nil => rfl
  | cons p t ih =>
    by_cases h : p.1 = k
    · simp [expandMacros, lookupS, h]
    · simp only [expandMacros, List.map_cons, lookupS, if_neg h]
      simpa [expandMacros] using ih

/-- Membership transfer: a first binding found by lookupS is a member. -/
theorem lookupS_mem {k v : String} : ∀ {l : List (String × String)},
    lookupS k l = some v → (k, v) ∈ l := by
  intro l
  induction l with
  | nil => intro h; simp [lookupS] at h
  | cons p t ih =>
    intro h
    by_cases hp : p.1 = k
    · simp only [lookupS, if_pos hp] at h
      obtain ⟨a, b⟩ := p
      simp only at hp
      subst hp
      simp at h
      subst h
      exact List.mem_cons_self _ _
    · simp only [lookupS, if_neg hp] at h
      exact List.mem_cons_of_mem _ (ih h)

end EntityStore

namespace EntityStore

/-! ### Claim C9: template expansion -/

/-- C9.  For every pattern table and every source attribute map, template
expansion replaces each maximal brace-delimited macro occurrence with the
stringification of the named attribute in the source map — string attributes
as their raw string, numeric attributes as their decimal text form, boolean
attributes as true/false, null, binary and set attributes and unknown
attribute names as the empty string — and copies all non-macro text
verbatim.  The first conjunct is the scan step (macro replaced, leading
literal text copied), the second is verbatim copying of macro-free text, the
remaining conjuncts fix the stringification of each attribute tag and that
expandMacros applies this expansion to every template of the pattern
table. -/
theorem C9_template_expansion :
    (∀ (av : AttrMap) (lit name rest : List Char), '{' ∉ lit → name ≠ [] → '}' ∉ name →
        expandT (replAttr av) (lit ++ '{' :: (name ++ '}' :: rest)) =
          lit ++ stringifyOpt (lookupA (String.mk name) av) ++ expandT (replAttr av) rest)
  ∧ (∀ (av : AttrMap) (lit : List Char), '{' ∉ lit → expandT (replAttr av) lit = lit)
  ∧ (∀ s, stringifyAttr (.S s) = s.data)
  ∧ (∀ s, stringifyAttr (.N s) = s.data)
  ∧ stringifyAttr (.BOOL true) = "true".data
  ∧ stringifyAttr (.BOOL false) = "false".data
  ∧ stringifyAttr .Null = []
  ∧ (∀ b, stringifyAttr (.B b) = [])
  ∧ (∀ l, stringifyAttr (.SS l) = [])
  ∧ (∀ l, stringifyAttr (.NS l) = [])
  ∧ (∀ l, stringifyAttr (.BS l) = [])
  ∧ stringifyOpt none = []
  ∧ (∀ im av, expandMacros im av =
      im.map (fun p => (p.1, String.mk (expandT (replAttr av) p.2.data)))) :=
  ⟨fun _ lit name rest h1 h2 h3 => expandT_step lit name rest h1 h2 h3,
   fun _ lit h => expandT_lit lit h,
   fun _ => rfl, fun _ => rfl, rfl, rfl, rfl, fun _ => rfl, fun _ => rfl,
   fun _ => rfl, fun _ => rfl, rfl, fun _ _ => rfl⟩

/-- Witness for C9: concrete instance USER#(ID) against ID = TTOakville. -/
theorem C9_witness :
    expandT (replAttr [("ID", AttrVal.S "TTOakville")])
        ("USER#".data ++ '{' :: ("ID".data ++ '}' :: [])) =
      "USER#".data ++ stringifyOpt (lookupA (String.mk "ID".data)
        [("ID", AttrVal.S "TTOakville")]) ++
        expandT (replAttr [("ID", AttrVal.S "TTOakville")]) [] :=
  C9_template_expansion.1 [("ID", AttrVal.S "TTOakville")] "USER#".data "ID".data []
    (by decide) (by decide) (by decide)

/-! ### Claim C1: put / get-one round trip -/

theorem expandMacros_fst (im : List (String × String)) (av : AttrMap) :
    (expandMacros im av).map Prod.fst = im.map Prod.fst := by
  simp [expandMacros, List.map_map]

/-- C1.  For every type with a registered index map, and every entity whose
expanded PK and SK key strings are non-empty, put followed by get-one with
the identifier of the entity returns an item that agrees with the entity on
all of its attributes.  The hypotheses say: the index-map field names are
distinct and disjoint from the attribute names of the entity (true of every
registered pattern table), the expanded PK and SK are non-empty, and the
string-key expansion of the identifier reproduces the same PK and SK (what
it means for the scalar to be the identifier of the entity). -/
theorem C1_put_getOne_roundtrip
    (im : List (String × String)) (m : AttrMap) (id : String) (tbl : Table)
    (hnd : (im.map Prod.fst).Nodup)
    (hdisj : ∀ p ∈ im, lookupA p.1 m = none)
    (pk sk : String)
    (hpk : lookupS "PK" (expandMacros im m) = some pk) (hpk0 : pk ≠ "")
    (hsk : lookupS "SK" (expandMacros im m) = some sk) (hsk0 : sk ≠ "")
    (hkpk : lookupS "PK" (expandStringKey im id) = some pk)
    (hksk : lookupS "SK" (expandStringKey im id) = some sk) :
    ∃ tbl2 r, putModel im m tbl = .ok tbl2 ∧
      getOneModel im id tbl2 = .ok (some r) ∧
      ∀ k v, lookupA k m = some v → lookupA k r = some v := by
  have hnd2 : ((expandMacros im m).map Prod.fst).Nodup := by
    rw [expandMacros_fst]; exact hnd
  have hPK : lookupA "PK" (putItemAttrs im m) = some (.S pk) :=
    lookupA_foldl_mem "PK" pk (expandMacros im m) m hnd2 (lookupS_mem hpk)
  have hSK : lookupA "SK" (putItemAttrs im m) = some (.S sk) :=
    lookupA_foldl_mem "SK" sk (expandMacros im m) m hnd2 (lookupS_mem hsk)
  have hput : putModel im m tbl = .ok (insertTbl (pk, sk) (putItemAttrs im m) tbl) := by
    unfold putModel
    rw [hPK, hSK]
    simp [hpk0, hsk0]
  refine ⟨insertTbl (pk, sk) (putItemAttrs im m) tbl, putItemAttrs im m, hput, ?_, ?_⟩
  · unfold getOneModel
    rw [hkpk, hksk]
    have hcond : ¬ (pk = "" ∨ sk = "") := by
      push_neg
      exact ⟨hpk0, hsk0⟩
    simp only [if_neg hcond]
    simp [lookupTbl, insertTbl]
  · intro k v hv
    have hk : k ∉ (expandMacros im m).map Prod.fst := by
      rw [expandMacros_fst]
      intro hmem
      obtain ⟨p, hp, hpk2⟩ := List.mem_map.mp hmem
      have := hdisj p hp
      rw [hpk2] at this
      rw [this] at hv
      exact Option.noConfusion hv
    unfold putItemAttrs
    rw [lookupA_foldl_not_mem k (expandMacros im m) m hk]
    exact hv

/-- Witness for C1: the spec scenario S1 — index map PK = SK = the ID macro,
entity with ID TTOakville and Name X, identifier TTOakville. -/
theorem C1_witness :
    ∃ tbl2 r,
      putModel [("PK", "{ID}"), ("SK", "{ID}")]
          [("ID", AttrVal.S "TTOakville"), ("Name", AttrVal.S "X")] [] = .ok tbl2 ∧
      getOneModel [("PK", "{ID}"), ("SK", "{ID}")] "TTOakville" tbl2 = .ok (some r) ∧
      ∀ k v, lookupA k [("ID", AttrVal.S "TTOakville"), ("Name", AttrVal.S "X")] = some v →
        lookupA k r = some v :=
  C1_put_getOne_roundtrip [("PK", "{ID}"), ("SK", "{ID}")]
    [("ID", AttrVal.S "TTOakville"), ("Name", AttrVal.S "X")] "TTOakville" []
    (by decide) (by decide) "TTOakville" "TTOakville"
    (by decide) (by decide) (by decide) (by decide) (by decide) (by decide)

end EntityStore

namespace EntityStore

/-! ### Neutral query parameters and the provider request (C2) -/

/-- storagemodels.QueryParams: the neutral query parameter object. -/
structure QueryParamsM where
  TableName : String
  KeyConditionExpression : String
  FilterExpression : Option String
  ExpressionAttributeValues : List (String × AttrVal)
  IndexName : Option String
  Limit : Option Nat
  ScanIndexForward : Option Bool
  deriving DecidableEq, Repr

/-- The provider QueryInput assembled by the store. -/
structure QueryInputM where
  TableName : String
  KeyConditionExpression : String
  FilterExpression : Option String
  ExpressionAttributeValues : List (String × AttrVal)
  IndexName : Option String
  Limit : Option Nat
  ScanIndexForward : Option Bool
  deriving DecidableEq, Repr

/-- The QueryInput built by Query: every field is copied from params,
including TableName — the table configured on the store (first argument) is
not consulted. -/
def buildQueryInput (_storeTableName : String) (params : QueryParamsM) : QueryInputM :=
  ⟨params.TableName, params.KeyConditionExpression, params.FilterExpression,
   params.ExpressionAttributeValues, params.IndexName, params.Limit,
   params.ScanIndexForward⟩

/-- The QueryInput built by streamWorker (stream.go lines 77-85): fields
copied from params, with the page-size option as the limit; TableName is
again taken from params, not from the store. -/
def buildStreamQueryInput (_storeTableName : String) (params : QueryParamsM)
    (pageSize : Nat) : QueryInputM :=
  ⟨params.TableName, params.KeyConditionExpression, params.FilterExpression,
   params.ExpressionAttributeValues, params.IndexName, some pageSize,
   params.ScanIndexForward⟩

/-- C2 (code bug).  The claim says the table name placed in the provider
request equals the configured table name of the store regardless of what the
caller put into the parameter object.  The code instead copies the caller
value: with store table actual-table and params table wrong-table, both the
query path and the streaming path place wrong-table in the request. -/
theorem C2_request_table_name_from_params :
    (buildQueryInput "actual-table"
        ⟨"wrong-table", "GSI1PK = :pk", none, [], some "GSI1", none, none⟩).TableName =
      "wrong-table" ∧
    (buildStreamQueryInput "actual-table"
        ⟨"wrong-table", "GSI1PK = :pk", none, [], some "GSI1", none, none⟩ 100).TableName =
      "wrong-table" ∧
    "wrong-table" ≠ "actual-table" :=
  ⟨rfl, rfl, by decide⟩

/-! ### Claim C3: EntityType injection on write (code bug) -/

/-- C3 (code bug).  The claim says every item written by Put carries the
reserved EntityType string attribute with the registered type name.  The
item Put assembles for the registered RatingSystem index map and the
scenario S1 entity has no EntityType attribute at all: Put inserts only the
expanded key fields into the marshalled entity. -/
theorem C3_put_item_has_no_entity_type :
    lookupA "EntityType" (putItemAttrs [("PK", "{ID}"), ("SK", "{ID}")]
      [("ID", AttrVal.S "TTOakville"), ("Name", AttrVal.S "X")]) = none ∧
    putModel [("PK", "{ID}"), ("SK", "{ID}")]
        [("ID", AttrVal.S "TTOakville"), ("Name", AttrVal.S "X")] [] =
      .ok [(("TTOakville", "TTOakville"),
        [("SK", AttrVal.S "TTOakville"), ("PK", AttrVal.S "TTOakville"),
         ("ID", AttrVal.S "TTOakville"), ("Name", AttrVal.S "X")])] :=
  ⟨by decide, rfl⟩

/-! ### Claim C5: NotFound on absent keys (code bug) -/

/-- C5 (code bug).  The claim says a point read or delete against an absent
key fails with a NotFound error carrying the type name and key, and that
get-one does not succeed with an empty result.  Against the empty table,
get-one for TTOakville succeeds with an empty result (the code returns
nil, nil when out.Item is nil) and delete also succeeds (DeleteItem is
unconditional); neither produces an error. -/
theorem C5_absent_key_operations_succeed :
    getOneModel [("PK", "{ID}"), ("SK", "{ID}")] "TTOakville" [] = .ok none ∧
    deleteModel [("PK", "{ID}"), ("SK", "{ID}")] "TTOakville" [] = .ok [] :=
  ⟨rfl, rfl⟩

end EntityStore

namespace EntityStore

/-! ### Fluent GSI query builder (gsi_query.go) -/

/-- strings.Contains(s, a hash sign). -/
def containsHash (s : String) : Bool := s.data.contains '#'

/-- parts[0] of strings.Split(s, a hash sign): the segment before the first
hash, or all of s when none occurs. -/
def hashHead (s : String) : String := String.mk (s.data.takeWhile (fun c => c ≠ '#'))

/-- The mutable state of GSIQueryBuilder after the fluent With* calls:
index name (fixed to GSI1 by QueryGSI), partition and sort key values, sort
operator tag, filter fragments and their values, the attribute values
already placed in params (WithSortKeyBetween stores :sk2 there directly),
the limit, and the table name captured from the store. -/
structure GSIBuilderM where
  indexName : String
  pkValue : String
  skValue : String
  skOperator : String
  filters : List String
  filterVals : List (String × AttrVal)
  exprVals : List (String × AttrVal)
  limit : Option Nat
  tableName : String
  deriving DecidableEq, Repr

/-- QueryGSI: fresh builder against GSI1 with the table of the store. -/
def queryGSI (storeTableName : String) : GSIBuilderM :=
  ⟨"GSI1", "", "", "", [], [], [], none, storeTableName⟩

/-- WithPartitionKey. -/
def withPartitionKey (v : String) (q : GSIBuilderM) : GSIBuilderM :=
  ⟨q.indexName, v, q.skValue, q.skOperator, q.filters, q.filterVals,
   q.exprVals, q.limit, q.tableName⟩

/-- WithSortKey (equality operator). -/
def withSortKey (v : String) (q : GSIBuilderM) : GSIBuilderM :=
  ⟨q.indexName, q.pkValue, v, "=", q.filters, q.filterVals,
   q.exprVals, q.limit, q.tableName⟩

/-- WithSortKeyPrefix (begins_with operator). -/
def withSortKeyBeginsWith (v : String) (q : GSIBuilderM) : GSIBuilderM :=
  ⟨q.indexName, q.pkValue, v, "begins_with", q.filters, q.filterVals,
   q.exprVals, q.limit, q.tableName⟩

/-- WithSortKeyBetween: records the upper bound under :sk2 immediately. -/
def withSortKeyBetween (a b : String) (q : GSIBuilderM) : GSIBuilderM :=
  ⟨q.indexName, q.pkValue, a, "BETWEEN", q.filters, q.filterVals,
   insertA ":sk2" (.S b) q.exprVals, q.limit, q.tableName⟩

/-- WithFilter: appends the fragment and merges the values. -/
def withFilter (expr : String) (vals : List (String × AttrVal)) (q : GSIBuilderM) :
    GSIBuilderM :=
  ⟨q.indexName, q.pkValue, q.skValue, q.skOperator, q.filters ++ [expr],
   q.filterVals ++ vals, q.exprVals, q.limit, q.tableName⟩

/-- WithLimit. -/
def withLimit (n : Nat) (q : GSIBuilderM) : GSIBuilderM :=
  ⟨q.indexName, q.pkValue, q.skValue, q.skOperator, q.filters, q.filterVals,
   q.exprVals, some n, q.tableName⟩

/-- The sort-key fragment appended to the key condition for each operator,
referencing the logical attribute name GSI1SK as the source does. -/
def skCondition (op : String) : Option String :=
  match op with
  | "=" => some "GSI1SK = :sk"
  | "begins_with" => some "begins_with(GSI1SK, :sk)"
  | ">" => some "GSI1SK > :sk"
  | "<" => some "GSI1SK < :sk"
  | ">=" => some "GSI1SK >= :sk"
  | "<=" => some "GSI1SK <= :sk"
  | "BETWEEN" => some "GSI1SK BETWEEN :sk AND :sk2"
  | _ => none

/-- Build (gsi_query.go lines 101-196).  Requires a partition value and a
GSI1PK template in the index map of T.  The partition value is prefixed by
the segment of the template before the first hash when the template contains
one; the sort value likewise, unless it already contains a hash.  The key
condition references the logical names GSI1PK / GSI1SK; an initial
brace-stripped expansion of the template is computed in the source but
overwritten on every path, so it does not appear here. -/
def buildModel (im : List (String × String)) (q : GSIBuilderM) :
    Except String QueryParamsM :=
  if q.pkValue = "" then .error "GSI partition key value is required"
  else match lookupS "GSI1PK" im with
  | none => .error "GSI1PK not found in index map"
  | some pkPattern =>
    let expandedPK :=
      if containsHash pkPattern then hashHead pkPattern ++ "#" ++ q.pkValue
      else q.pkValue
    let vals1 := insertA ":pk" (.S expandedPK) q.exprVals
    let step2 : List String × List (String × AttrVal) :=
      if q.skValue = "" then (["GSI1PK = :pk"], vals1)
      else match lookupS "GSI1SK" im with
        | none => (["GSI1PK = :pk"], vals1)
        | some skPattern =>
          let expandedSK :=
            if containsHash skPattern && !(containsHash q.skValue) then
              hashHead skPattern ++ "#" ++ q.skValue
            else q.skValue
          match skCondition q.skOperator with
          | some cond => (["GSI1PK = :pk", cond], insertA ":sk" (.S expandedSK) vals1)
          | none => (["GSI1PK = :pk"], vals1)
    let keyCond := String.intercalate " AND " step2.1
    let withFilters : Option String × List (String × AttrVal) :=
      if q.filters = [] then (none, step2.2)
      else (some (String.intercalate " AND " q.filters),
        q.filterVals.foldl (fun acc p => insertA p.1 p.2 acc) step2.2)
    .ok ⟨q.tableName, keyCond, withFilters.1, withFilters.2,
      some q.indexName, q.limit, none⟩

/-- C4 (code bug).  The claim (and the unit tests of the repository) say the
built key condition references the physical attribute names PK1 / SK1.  For
the scenario S3 registration (GSI1PK EMAIL#..., GSI1SK STATUS#...), building
with partition key alice@x and sort prefix STATUS#active produces index name
GSI1 and the claimed placeholder values, but the key condition references
the logical names GSI1PK / GSI1SK, not PK1 / SK1. -/
theorem C4_build_uses_logical_names :
    (buildModel
        [("PK", "ENTITY#{ID}"), ("SK", "ENTITY#{ID}"),
         ("GSI1PK", "EMAIL#{Email}"), ("GSI1SK", "STATUS#{Status}")]
        (withSortKeyBeginsWith "STATUS#active"
          (withPartitionKey "alice@x" (queryGSI "test-table"))) =
      .ok ⟨"test-table", "GSI1PK = :pk AND begins_with(GSI1SK, :sk)", none,
        [(":sk", AttrVal.S "STATUS#active"), (":pk", AttrVal.S "EMAIL#alice@x")],
        some "GSI1", none, none⟩) ∧
    "GSI1PK = :pk AND begins_with(GSI1SK, :sk)" ≠
      "PK1 = :pk AND begins_with(SK1, :sk)" :=
  ⟨rfl, by decide⟩

end EntityStore

namespace EntityStore

/-! ### Streaming engine (stream.go): retry loop and worker -/

/-- One provider answer to a Query call: a page of items together with the
continuation flag (whether LastEvaluatedKey is non-empty), a transient
(retryable) error, or a fatal (non-retryable) error. -/
inductive PageResp where
  | page (items : List AttrMap) (more : Bool)
  | transient
  | fatal
  deriving DecidableEq, Repr

/-- Outcome of queryWithRetry: the page on success, or an error. -/
inductive RetryRes where
  | ok (items : List AttrMap) (more : Bool)
  | err
  deriving DecidableEq, Repr

/-- Result of the retry loop: outcome, the provider responses not yet
consumed, and the list of back-off delays slept (in multiples of the
configured base duration). -/
structure RetryOut where
  res : RetryRes
  rem : List PageResp
  delays : List Nat
  deriving DecidableEq, Repr

/-- queryWithRetry (stream.go lines 182-223) against a script of provider
responses, entered at the given attempt number: each loop iteration consumes
one response; a page returns immediately; a fatal error returns immediately
without retry; a transient error sleeps (attempt+1) * base and retries while
attempt < maxRetries, and otherwise ends the loop with an error.  An
exhausted script is a provider that no longer answers, modelled as an
error. -/
def retryLoop (maxRetries base : Nat) : Nat → List PageResp → RetryOut
  | _, [] => ⟨.err, [], []⟩
  | attempt, r :: rest =>
    match r with
    | .page items more => ⟨.ok items more, rest, []⟩
    | .fatal => ⟨.err, rest, []⟩
    | .transient =>
      if attempt < maxRetries then
        let out := retryLoop maxRetries base (attempt + 1) rest
        ⟨out.res, out.rem, ((attempt + 1) * base) :: out.delays⟩
      else ⟨.err, rest, []⟩

/-- queryWithRetry entered at attempt 0, as streamWorker calls it. -/
def queryWithRetryModel (maxRetries base : Nat) (resps : List PageResp) : RetryOut :=
  retryLoop maxRetries base 0 resps

/-- Metadata attached to each stream result (storagemodels.StreamMeta,
without the wall-clock timestamp): the zero-based item index and the
one-based page number. -/
structure StreamMetaM where
  index : Nat
  page : Nat
  deriving DecidableEq, Repr

/-- An emitted stream record: a per-item record (which may itself carry an
item-level deserialization error — the metadata assignment is identical) or
the single fatal error record. -/
inductive StreamRec where
  | item (raw : AttrMap) (meta : StreamMetaM)
  | errRec (meta : StreamMetaM)
  deriving DecidableEq, Repr

/-- Metadata of a record. -/
def StreamRec.meta : StreamRec → StreamMetaM
  | .item _ m => m
  | .errRec m => m

/-- Whether a record is a per-item record. -/
def StreamRec.isItem : StreamRec → Bool
  | .item _ _ => true
  | .errRec _ => false

/-- The records of one page: item i of the page gets index idx + i and the
page number of the page. -/
def pageRecs : List AttrMap → Nat → Nat → List StreamRec
  | [], _, _ => []
  | m :: t, idx, page => .item m ⟨idx, page⟩ :: pageRecs t (idx + 1) page

/-- streamWorker (stream.go lines 40-179) against a script of provider
responses: returns the emitted records and the number of error-handler
invocations.  On a successful page the page number is incremented and every
item is emitted with consecutive indexes; when the page carries no
continuation key the channel closes.  On a failed fetch: with no error
handler one error record is emitted and the channel closes; with a handler
that stops, the same after one handler call; with a handler that continues,
the error is recorded and the loop re-enters.  Fuel bounds the iterations
(each iteration consumes at least one scripted response). -/
def workerLoop (maxRetries base : Nat) (handler : Option Bool) :
    Nat → List PageResp → Nat → Nat → List StreamRec × Nat
  | 0, _, _, _ => ([], 0)
  | _ + 1, [], _, _ => ([], 0)
  | fuel + 1, r :: rs, idx, page =>
    match queryWithRetryModel maxRetries base (r :: rs) with
    | ⟨.ok items more, rem, _⟩ =>
      let recs := pageRecs items idx (page + 1)
      if more then
        let next := workerLoop maxRetries base handler fuel rem (idx + items.length) (page + 1)
        (recs ++ next.1, next.2)
      else (recs, 0)
    | ⟨.err, rem, _⟩ =>
      match handler with
      | none => ([.errRec ⟨idx, page⟩], 0)
      | some cont =>
        if cont then
          let next := workerLoop maxRetries base handler fuel rem idx page
          (next.1, next.2 + 1)
        else ([.errRec ⟨idx, page⟩], 1)

/-- The whole stream: worker started at index 0, page 0, with enough fuel
for the response script. -/
def streamModel (maxRetries base : Nat) (handler : Option Bool)
    (resps : List PageResp) : List StreamRec × Nat :=
  workerLoop maxRetries base handler (resps.length + 1) resps 0 0

end EntityStore

namespace EntityStore

/-! ### Lemmas for the retry loop (C7) -/

theorem retryLoop_consumed (maxRetries base : Nat) :
    ∀ (resps : List PageResp) (attempt : Nat), attempt ≤ maxRetries →
      resps.length ≤
        (retryLoop maxRetries base attempt resps).rem.length + (maxRetries + 1 - attempt) := by
  intro resps
  induction resps with
  | nil => intro attempt _; simp [retryLoop]
  | cons r rest ih =>
    intro attempt hat
    cases r with
    | page items more => simp [retryLoop]; omega
    | fatal => simp [retryLoop]; omega
    | transient =>
      by_cases ha : attempt < maxRetries
      · have := ih (attempt + 1) ha
        simp only [retryLoop, if_pos ha]
        simp only [List.length_cons]
        omega
      · simp only [retryLoop, if_neg ha]
        simp only [List.length_cons]
        omega

theorem retryLoop_delays (maxRetries base : Nat) :
    ∀ (resps : List PageResp) (attempt j : Nat)
      (hj : j < (retryLoop maxRetries base attempt resps).delays.length),
      ((retryLoop maxRetries base attempt resps).delays)[j] = (attempt + j + 1) * base := by
  intro resps
  induction resps with
  | nil => intro attempt j hj; simp [retryLoop] at hj
  | cons r rest ih =>
    intro attempt j hj
    cases r with
    | page items more => simp [retryLoop] at hj
    | fatal => simp [retryLoop] at hj
    | transient =>
      by_cases ha : attempt < maxRetries
      · simp only [retryLoop, if_pos ha] at hj ⊢
        cases j with
        | zero => simp
        | succ j =>
          simp only [List.getElem_cons_succ]
          simp only [List.length_cons] at hj
          rw [ih (attempt + 1) j (by omega)]
          ring_nf
      · simp [retryLoop, if_neg ha] at hj
end EntityStore

namespace EntityStore

theorem retryLoop_fatal (maxRetries base attempt : Nat) (rest : List PageResp) :
    retryLoop maxRetries base attempt (.fatal :: rest) = ⟨.err, rest, []⟩ := rfl

theorem retryLoop_exhaust (maxRetries base : Nat) :
    ∀ (k attempt : Nat) (rest : List PageResp), attempt + k = maxRetries →
      retryLoop maxRetries base attempt (List.replicate (k + 1) .transient ++ rest) =
        ⟨.err, rest, (List.range k).map (fun i => (attempt + i + 1) * base)⟩ := by
  intro k
  induction k with
  | zero =>
    intro attempt rest h
    have ha : ¬ attempt < maxRetries := by omega
    simp [List.replicate, retryLoop, if_neg ha]
  | succ k ih =>
    intro attempt rest h
    have ha : attempt < maxRetries := by omega
    have hrec := ih (attempt + 1) rest (by omega)
    rw [List.replicate_succ, List.cons_append]
    have hstep : retryLoop maxRetries base attempt
        (PageResp.transient :: (List.replicate (k + 1) PageResp.transient ++ rest)) =
        if attempt < maxRetries then
          ⟨(retryLoop maxRetries base (attempt + 1)
              (List.replicate (k + 1) PageResp.transient ++ rest)).res,
           (retryLoop maxRetries base (attempt + 1)
              (List.replicate (k + 1) PageResp.transient ++ rest)).rem,
           ((attempt + 1) * base) ::
             (retryLoop maxRetries base (attempt + 1)
                (List.replicate (k + 1) PageResp.transient ++ rest)).delays⟩
        else ⟨.err, List.replicate (k + 1) PageResp.transient ++ rest, []⟩ := rfl
    rw [hstep, if_pos ha, hrec]
    simp only [RetryOut.mk.injEq, true_and]
    rw [List.range_succ_eq_map]
    simp only [List.map_cons, List.map_map]
    congr 1
    apply List.map_congr_left
    intro i _
    simp only [Function.comp_apply, Nat.succ_eq_add_one]
    ring

end EntityStore

namespace EntityStore

/-! ### Lemmas for the stream worker (C8) -/

theorem pageRecs_length : ∀ (items : List AttrMap) (idx page : Nat),
    (pageRecs items idx page).length = items.length := by
  intro items
  induction items with
  | nil => intro idx page; rfl
  | cons m t ih => intro idx page; simp [pageRecs, ih]

theorem pageRecs_meta : ∀ (items : List AttrMap) (idx page i : Nat)
    (h : i < (pageRecs items idx page).length),
    ((pageRecs items idx page)[i]).meta = ⟨idx + i, page⟩ := by
  intro items
  induction items with
  | nil => intro idx page i h; simp [pageRecs] at h
  | cons m t ih =>
    intro idx page i h
    cases i with
    | zero => simp [pageRecs, StreamRec.meta]
    | succ i =>
      simp only [pageRecs, List.getElem_cons_succ]
      rw [ih (idx + 1) page i (by simpa [pageRecs] using h)]
      simp only [StreamMetaM.mk.injEq, and_true]
      omega

theorem pageRecs_mem : ∀ (items : List AttrMap) (idx page : Nat),
    ∀ r ∈ pageRecs items idx page, r.meta.page = page ∧ r.isItem = true := by
  intro items
  induction items with
  | nil => intro idx page r h; simp [pageRecs] at h
  | cons m t ih =>
    intro idx page r h
    rcases List.mem_cons.mp h with heq | htl
    · subst heq; exact ⟨rfl, rfl⟩
    · exact ih (idx + 1) page r htl


theorem pageRecs_chain (R : StreamRec → StreamRec → Prop)
    (hR : ∀ a b, a.meta.page = b.meta.page → R a b) :
    ∀ (items : List AttrMap) (idx page : Nat),
      List.Chain' R (pageRecs items idx page) := by
  intro items
  induction items with
  | nil => intro idx page; exact List.chain'_nil
  | cons m t ih =>
    intro idx page
    cases t with
    | nil => simp [pageRecs]
    | cons m2 t2 =>
      rw [pageRecs, pageRecs]
      apply List.Chain'.cons
      · exact hR _ _ rfl
      · have h2 := ih (idx + 1) page
        rw [pageRecs] at h2
        exact h2

theorem pageRecs_map_index : ∀ (items : List AttrMap) (idx page : Nat),
    (pageRecs items idx page).map (fun r => r.meta.index) =
      List.range' idx items.length := by
  intro items
  induction items with
  | nil => intro idx page; rfl
  | cons m t ih =>
    intro idx page
    rw [pageRecs, List.map_cons, ih (idx + 1) page, List.length_cons,
      List.range'_succ]
    rfl

/-- Index invariant of the worker: the emitted indexes are consecutive
starting at idx. -/
theorem workerLoop_map_index (maxRetries base : Nat) (handler : Option Bool) :
    ∀ (fuel : Nat) (resps : List PageResp) (idx page : Nat),
      (workerLoop maxRetries base handler fuel resps idx page).1.map
        (fun r => r.meta.index) =
      List.range' idx
        (workerLoop maxRetries base handler fuel resps idx page).1.length := by
  intro fuel
  induction fuel with
  | zero => intro resps idx page; rfl
  | succ fuel ih =>
    intro resps idx page
    cases resps with
    | nil => rfl
    | cons r rs =>
      rcases hq : queryWithRetryModel maxRetries base (r :: rs) with ⟨res, rem, ds⟩
      cases res with
      | ok items more =>
        cases more with
        | true =>
          have hrw : workerLoop maxRetries base handler (fuel + 1) (r :: rs) idx page =
              (pageRecs items idx (page + 1) ++
                (workerLoop maxRetries base handler fuel rem
                  (idx + items.length) (page + 1)).1,
               (workerLoop maxRetries base handler fuel rem
                  (idx + items.length) (page + 1)).2) := by
            simp [workerLoop, hq]
          rw [hrw]
          simp only [List.map_append, List.length_append, pageRecs_length]
          rw [pageRecs_map_index items idx (page + 1),
            ih rem (idx + items.length) (page + 1), List.range'_append_1,
            Nat.add_comm]
        | false =>
          have hrw : workerLoop maxRetries base handler (fuel + 1) (r :: rs) idx page =
              (pageRecs items idx (page + 1), 0) := by
            simp [workerLoop, hq]
          rw [hrw]
          simp only [pageRecs_length]
          exact pageRecs_map_index items idx (page + 1)
      | err =>
        have hrw : workerLoop maxRetries base handler (fuel + 1) (r :: rs) idx page =
            match handler with
            | none => ([.errRec ⟨idx, page⟩], 0)
            | some cont =>
              if cont then
                ((workerLoop maxRetries base handler fuel rem idx page).1,
                 (workerLoop maxRetries base handler fuel rem idx page).2 + 1)
              else ([.errRec ⟨idx, page⟩], 1) := by
          cases handler with
          | none => simp [workerLoop, hq]
          | some cont =>
            cases cont with
            | true => simp [workerLoop, hq]
            | false => simp [workerLoop, hq]
        rw [hrw]
        cases handler with
        | none => rfl
        | some cont =>
          cases cont with
          | true => exact ih rem idx page
          | false => rfl

/-- Page invariant of the worker: every emitted record carries a page number
at least the current page counter, item records strictly beyond it, and the
page numbers are weakly monotone along the emitted list. -/
theorem workerLoop_pages (maxRetries base : Nat) (handler : Option Bool) :
    ∀ (fuel : Nat) (resps : List PageResp) (idx page : Nat),
      (∀ r ∈ (workerLoop maxRetries base handler fuel resps idx page).1,
          page ≤ r.meta.page ∧ (r.isItem = true → page + 1 ≤ r.meta.page)) ∧
      List.Chain' (fun a b => a.meta.page ≤ b.meta.page)
        (workerLoop maxRetries base handler fuel resps idx page).1 := by
  intro fuel
  induction fuel with
  | zero =>
    intro resps idx page
    exact ⟨fun r h => absurd h (by simp [workerLoop]), List.chain'_nil⟩
  | succ fuel ih =>
    intro resps idx page
    cases resps with
    | nil => exact ⟨fun r h => absurd h (by simp [workerLoop]), List.chain'_nil⟩
    | cons r rs =>
      rcases hq : queryWithRetryModel maxRetries base (r :: rs) with ⟨res, rem, ds⟩
      cases res with
      | ok items more =>
        cases more with
        | true =>
          have hrw : workerLoop maxRetries base handler (fuel + 1) (r :: rs) idx page =
              (pageRecs items idx (page + 1) ++
                (workerLoop maxRetries base handler fuel rem
                  (idx + items.length) (page + 1)).1,
               (workerLoop maxRetries base handler fuel rem
                  (idx + items.length) (page + 1)).2) := by
            simp [workerLoop, hq]
          rw [hrw]
          have hnext := ih rem (idx + items.length) (page + 1)
          constructor
          · intro rec hmem
            rcases List.mem_append.mp hmem with hrec | hnxt
            · have := pageRecs_mem items idx (page + 1) rec hrec
              exact ⟨by omega, fun _ => by omega⟩
            · have := hnext.1 rec hnxt
              exact ⟨by omega, fun hit => by have := this.2 hit; omega⟩
          · rw [List.chain'_append]
            refine ⟨pageRecs_chain _ (fun a b hab => le_of_eq (congrArg id hab)) items idx (page + 1),
              hnext.2, ?_⟩
            intro x hx y hy
            have hxm := pageRecs_mem items idx (page + 1) x (List.mem_of_mem_getLast? hx)
            have hym := hnext.1 y (List.mem_of_mem_head? hy)
            omega
        | false =>
          have hrw : workerLoop maxRetries base handler (fuel + 1) (r :: rs) idx page =
              (pageRecs items idx (page + 1), 0) := by
            simp [workerLoop, hq]
          rw [hrw]
          constructor
          · intro rec hmem
            have := pageRecs_mem items idx (page + 1) rec hmem
            exact ⟨by omega, fun _ => by omega⟩
          · exact pageRecs_chain _ (fun a b hab => le_of_eq (congrArg id hab)) items idx (page + 1)
      | err =>
        have hrw : workerLoop maxRetries base handler (fuel + 1) (r :: rs) idx page =
            match handler with
            | none => ([.errRec ⟨idx, page⟩], 0)
            | some cont =>
              if cont then
                ((workerLoop maxRetries base handler fuel rem idx page).1,
                 (workerLoop maxRetries base handler fuel rem idx page).2 + 1)
              else ([.errRec ⟨idx, page⟩], 1) := by
          cases handler with
          | none => simp [workerLoop, hq]
          | some cont =>
            cases cont with
            | true => simp [workerLoop, hq]
            | false => simp [workerLoop, hq]
        rw [hrw]
        cases handler with
        | none =>
          constructor
          · intro rec hmem
            rcases List.mem_singleton.mp hmem with rfl
            exact ⟨le_rfl, fun hit => by simp [StreamRec.isItem] at hit⟩
          · exact List.chain'_singleton _
        | some cont =>
          cases cont with
          | true => exact ih rem idx page
          | false =>
            constructor
            · intro rec hmem
              rcases List.mem_singleton.mp hmem with rfl
              exact ⟨le_rfl, fun hit => by simp [StreamRec.isItem] at hit⟩
            · exact List.chain'_singleton _

end EntityStore

namespace EntityStore

/-- C7.  Retry soundness of the streaming engine: a page fetch performs at
most maxRetries + 1 provider calls (the initial attempt plus up to
maxRetries retries); the j-th back-off delay slept between consecutive
attempts is (j + 1) * base, so the delays are non-decreasing; a
non-transient error returns immediately and is never retried; and when
maxRetries + 1 successive transient errors exhaust the budget, the fetch
fails once and the worker reports exactly one fatal error — one error record
on the sequence when no error observer is installed, and exactly one
observer invocation when one is. -/
theorem C7_retry_soundness :
    (∀ maxRetries base (resps : List PageResp),
        resps.length ≤
          (queryWithRetryModel maxRetries base resps).rem.length + maxRetries + 1)
  ∧ (∀ maxRetries base (resps : List PageResp) (j : Nat)
        (hj : j < (queryWithRetryModel maxRetries base resps).delays.length),
        ((queryWithRetryModel maxRetries base resps).delays)[j] = (j + 1) * base)
  ∧ (∀ maxRetries base (resps : List PageResp),
        List.Chain' (· ≤ ·) (queryWithRetryModel maxRetries base resps).delays)
  ∧ (∀ maxRetries base (rest : List PageResp),
        queryWithRetryModel maxRetries base (.fatal :: rest) = ⟨.err, rest, []⟩)
  ∧ (∀ maxRetries base (rest : List PageResp),
        queryWithRetryModel maxRetries base
            (List.replicate (maxRetries + 1) .transient ++ rest) =
          ⟨.err, rest, (List.range maxRetries).map (fun i => (i + 1) * base)⟩)
  ∧ (∀ maxRetries base (rest : List PageResp),
        streamModel maxRetries base none
            (List.replicate (maxRetries + 1) .transient ++ rest) =
          ([.errRec ⟨0, 0⟩], 0))
  ∧ (∀ maxRetries base (d : Bool),
        (streamModel maxRetries base (some d)
            (List.replicate (maxRetries + 1) .transient)).2 = 1) := by
  refine ⟨?_, ?_, ?_, ?_, ?_, ?_, ?_⟩
  · intro maxRetries base resps
    unfold queryWithRetryModel
    have := retryLoop_consumed maxRetries base resps 0 (Nat.zero_le _)
    omega
  · intro maxRetries base resps j hj
    unfold queryWithRetryModel at hj ⊢
    have := retryLoop_delays maxRetries base resps 0 j hj
    rw [Nat.zero_add] at this
    exact this
  · intro maxRetries base resps
    unfold queryWithRetryModel
    rw [List.chain'_iff_get]
    intro i h
    rw [List.get_eq_getElem, List.get_eq_getElem]
    have h1 := retryLoop_delays maxRetries base resps 0 i (by omega)
    have h2 := retryLoop_delays maxRetries base resps 0 (i + 1) (by omega)
    rw [Nat.zero_add] at h1 h2
    rw [h1, h2]
    exact Nat.mul_le_mul_right base (by omega)
  · intro maxRetries base rest
    rfl
  · intro maxRetries base rest
    have h := retryLoop_exhaust maxRetries base maxRetries 0 rest (by omega)
    unfold queryWithRetryModel
    rw [h]
    simp only [RetryOut.mk.injEq, true_and]
    apply List.map_congr_left
    intro i _
    rw [Nat.zero_add]
  · intro maxRetries base rest
    have hq : queryWithRetryModel maxRetries base
        (List.replicate (maxRetries + 1) PageResp.transient ++ rest) =
        ⟨.err, rest, (List.range maxRetries).map (fun i => (0 + i + 1) * base)⟩ :=
      retryLoop_exhaust maxRetries base maxRetries 0 rest (by omega)
    unfold streamModel
    rw [List.replicate_succ, List.cons_append] at hq ⊢
    simp [workerLoop, hq]
  · intro maxRetries base d
    have hq : queryWithRetryModel maxRetries base
        (List.replicate (maxRetries + 1) PageResp.transient ++ ([] : List PageResp)) =
        ⟨.err, [], (List.range maxRetries).map (fun i => (0 + i + 1) * base)⟩ :=
      retryLoop_exhaust maxRetries base maxRetries 0 [] (by omega)
    rw [List.append_nil] at hq
    unfold streamModel
    rw [List.replicate_succ] at hq ⊢
    cases d with
    | true => simp [workerLoop, hq]
    | false => simp [workerLoop, hq]

/-- Witness for C7: with maxRetries 3 and base 5, two transient failures
before a success sleep 5 then 10; the second delay is read off through the
theorem. -/
theorem C7_witness :
    ((queryWithRetryModel 3 5
        [PageResp.transient, PageResp.transient, PageResp.page [] false]).delays.get
      ⟨1, by decide⟩) = (1 + 1) * 5 := by
  rw [List.get_eq_getElem]
  exact C7_retry_soundness.2.1 3 5
    [PageResp.transient, PageResp.transient, PageResp.page [] false] 1 (by decide)

end EntityStore

namespace EntityStore

/-- C8.  Streaming order: for every provider script and options, the i-th
record emitted by the stream (counting from 0, error record included — it is
assigned the running item index) carries meta index i, so the indexes are
strictly monotonic; the page numbers along the emitted sequence are weakly
monotonic; and every per-item record carries a page number of at least 1
(pages are numbered from 1; only the fatal error record, emitted before any
page succeeded, can carry page number 0). -/
theorem C8_stream_monotonicity (maxRetries base : Nat) (handler : Option Bool)
    (resps : List PageResp) :
    (∀ i (h : i < (streamModel maxRetries base handler resps).1.length),
        (((streamModel maxRetries base handler resps).1)[i]).meta.index = i)
  ∧ List.Chain' (fun a b => a.meta.page ≤ b.meta.page)
      (streamModel maxRetries base handler resps).1
  ∧ (∀ r ∈ (streamModel maxRetries base handler resps).1,
        r.isItem = true → 1 ≤ r.meta.page) := by
  have hmap := workerLoop_map_index maxRetries base handler (resps.length + 1) resps 0 0
  have hpages := workerLoop_pages maxRetries base handler (resps.length + 1) resps 0 0
  refine ⟨?_, hpages.2, fun r hr hit => (hpages.1 r hr).2 hit⟩
  intro i h
  have hfin : i < (workerLoop maxRetries base handler (resps.length + 1) resps 0 0).1.length := h
  show ((workerLoop maxRetries base handler (resps.length + 1) resps 0 0).1[i]).meta.index = i
  have hq : (List.map (fun r => r.meta.index)
      (workerLoop maxRetries base handler (resps.length + 1) resps 0 0).1)[i]? =
      (List.range' 0
        (workerLoop maxRetries base handler (resps.length + 1) resps 0 0).1.length)[i]? := by
    rw [hmap]
  rw [List.getElem?_map, List.getElem?_eq_getElem hfin,
    List.getElem?_range' 0 1 (by simpa using hfin)] at hq
  simp only [Option.map_some', Option.some.injEq] at hq
  omega

/-- Witness for C8: spec scenario S5 — two transient failures, then a page
of three items with a continuation, then a page of two items without one;
the record at position 3 carries index 3. -/
theorem C8_witness :
    ((streamModel 3 0 none
        [PageResp.transient, PageResp.transient,
         PageResp.page [[("ID", AttrVal.S "a")], [("ID", AttrVal.S "b")],
           [("ID", AttrVal.S "c")]] true,
         PageResp.page [[("ID", AttrVal.S "d")], [("ID", AttrVal.S "e")]] false]).1.get
      ⟨3, by decide⟩).meta.index = 3 := by
  rw [List.get_eq_getElem]
  exact (C8_stream_monotonicity 3 0 none
    [PageResp.transient, PageResp.transient,
     PageResp.page [[("ID", AttrVal.S "a")], [("ID", AttrVal.S "b")],
       [("ID", AttrVal.S "c")]] true,
     PageResp.page [[("ID", AttrVal.S "d")], [("ID", AttrVal.S "e")]] false]).1 3
    (by decide)

end EntityStore

namespace EntityStore

/-! ### Item deserialization paths (C6) -/

/-- Which deserializer an item deserialization path ends in: direct
unmarshalling into T of the given attributes, invocation of the registered
deserializer for the named type on the given attributes, the generic-map
fallback of the query path, or an item-level error. -/
inductive DeserOutcome where
  | direct (item : AttrMap)
  | viaRegistry (name : String) (item : AttrMap)
  | genericMap (item : AttrMap)
  | failure
  deriving DecidableEq, Repr

/-- processItem (stream.go lines 226-292) control flow.  The success of the
direct unmarshal into T is abstracted by directOk, and registration by
registered.  A present string EntityType is unmarshalled and removed; a Null
EntityType unmarshals to the empty string and is also removed; any other tag
fails to unmarshal into a string and yields an item error.  Direct
deserialization into T is attempted first; only when it fails and the
EntityType value is a registered non-empty name is the registered
deserializer invoked (on the item without EntityType). -/
def streamItemPath (registered : String → Bool) (directOk : AttrMap → Bool)
    (item : AttrMap) : DeserOutcome :=
  match lookupA "EntityType" item with
  | some (.S name) =>
    if directOk (eraseA "EntityType" item) then .direct (eraseA "EntityType" item)
    else if name = "" then .failure
    else if registered name then .viaRegistry name (eraseA "EntityType" item)
    else .failure
  | some .Null =>
    if directOk (eraseA "EntityType" item) then .direct (eraseA "EntityType" item)
    else .failure
  | some _ => .failure
  | none => if directOk item then .direct item else .failure

/-- Query (the Query method) control flow: an item without an EntityType
attribute is an error; a string (or Null, read as the empty string)
EntityType selects the registered deserializer, invoked on the item with
EntityType still present; an unregistered name falls back to unmarshalling
into a generic map, not into T. -/
def queryItemPath (registered : String → Bool) (item : AttrMap) : DeserOutcome :=
  match lookupA "EntityType" item with
  | some (.S name) =>
    if registered name then .viaRegistry name item else .genericMap item
  | some .Null =>
    if registered "" then .viaRegistry "" item else .genericMap item
  | some _ => .failure
  | none => .failure

/-- The deserialization rule as the claim states it: discriminator first
(registered deserializer on the stripped item when EntityType is present and
registered), direct into T otherwise. -/
def specItemPath (registered : String → Bool) (item : AttrMap) : DeserOutcome :=
  match lookupA "EntityType" item with
  | some (.S name) =>
    if registered name then .viaRegistry name (eraseA "EntityType" item)
    else .direct item
  | _ => .direct item

/-- C6 counterexample.  For the item with EntityType RatingSystem (which is
registered) whose direct deserialization succeeds, the streaming engine uses
direct deserialization, not the registered deserializer the claim
prescribes; and the query path rejects an item without EntityType instead of
deserializing it directly into T. -/
theorem C6_counterexample :
    streamItemPath (fun s => s == "RatingSystem") (fun _ => true)
        [("EntityType", AttrVal.S "RatingSystem"), ("Id", AttrVal.S "x")] ≠
      specItemPath (fun s => s == "RatingSystem")
        [("EntityType", AttrVal.S "RatingSystem"), ("Id", AttrVal.S "x")] ∧
    queryItemPath (fun s => s == "RatingSystem") [("Id", AttrVal.S "x")] ≠
      specItemPath (fun s => s == "RatingSystem") [("Id", AttrVal.S "x")] := by
  constructor
  · decide
  · decide

/-- C6 (amended).  Deserialization is direct-first with registry fallback in
the streaming engine: a present string EntityType is removed, direct
deserialization into T is attempted first and wins when it succeeds, and the
registered deserializer is invoked on the remaining attributes only when
direct deserialization fails and the non-empty name is registered; with
EntityType absent only direct deserialization is attempted.  In the query
path an item without EntityType is an error, a registered EntityType invokes
the registered deserializer on the item with EntityType retained, and an
unregistered EntityType falls back to a generic map, never to T. -/
theorem C6_direct_first_registry_fallback :
    (∀ (registered : String → Bool) (directOk : AttrMap → Bool) (item : AttrMap)
        (name : String),
        lookupA "EntityType" item = some (.S name) →
        directOk (eraseA "EntityType" item) = true →
        streamItemPath registered directOk item = .direct (eraseA "EntityType" item))
  ∧ (∀ (registered : String → Bool) (directOk : AttrMap → Bool) (item : AttrMap)
        (name : String),
        lookupA "EntityType" item = some (.S name) →
        directOk (eraseA "EntityType" item) = false →
        name ≠ "" → registered name = true →
        streamItemPath registered directOk item = .viaRegistry name (eraseA "EntityType" item))
  ∧ (∀ (registered : String → Bool) (directOk : AttrMap → Bool) (item : AttrMap),
        lookupA "EntityType" item = none → directOk item = true →
        streamItemPath registered directOk item = .direct item)
  ∧ (∀ (registered : String → Bool) (item : AttrMap),
        lookupA "EntityType" item = none → queryItemPath registered item = .failure)
  ∧ (∀ (registered : String → Bool) (item : AttrMap) (name : String),
        lookupA "EntityType" item = some (.S name) → registered name = true →
        queryItemPath registered item = .viaRegistry name item)
  ∧ (∀ (registered : String → Bool) (item : AttrMap) (name : String),
        lookupA "EntityType" item = some (.S name) → registered name = false →
        queryItemPath registered item = .genericMap item) := by
  refine ⟨?_, ?_, ?_, ?_, ?_, ?_⟩
  · intro registered directOk item name het hd
    unfold streamItemPath
    rw [het, hd]
    simp
  · intro registered directOk item name het hd hne hr
    unfold streamItemPath
    rw [het, hd]
    simp [hne, hr]
  · intro registered directOk item het hd
    unfold streamItemPath
    rw [het, hd]
    simp
  · intro registered item het
    unfold queryItemPath
    rw [het]
  · intro registered item name het hr
    unfold queryItemPath
    rw [het]
    simp [hr]
  · intro registered item name het hr
    unfold queryItemPath
    rw [het]
    simp [hr]

/-- Witness for the amended C6: direct-first on a registered item whose
direct deserialization succeeds, and failure of the query path on a
discriminator-free item. -/
theorem C6_witness :
    streamItemPath (fun s => s == "RatingSystem") (fun _ => true)
        [("EntityType", AttrVal.S "RatingSystem"), ("Id", AttrVal.S "x")] =
      .direct (eraseA "EntityType"
        [("EntityType", AttrVal.S "RatingSystem"), ("Id", AttrVal.S "x")]) ∧
    queryItemPath (fun s => s == "RatingSystem") [("Id", AttrVal.S "x")] = .failure :=
  ⟨C6_direct_first_registry_fallback.1 (fun s => s == "RatingSystem") (fun _ => true)
      [("EntityType", AttrVal.S "RatingSystem"), ("Id", AttrVal.S "x")] "RatingSystem"
      (by decide) (by decide),
   C6_direct_first_registry_fallback.2.2.2.1 (fun s => s == "RatingSystem")
      [("Id", AttrVal.S "x")] (by decide)⟩

end EntityStore

namespace EntityStore

/-! ### Registries (registry/type_registry.go, C10) -/

/-- Lookup in the type registry (deserializers identified by a number). -/
def lookupFn (k : String) : List (String × Nat) → Option Nat
  | [] => none
  | (k2, v) :: t => if k2 = k then some v else lookupFn k t

/-- RegisterType (type_registry.go lines 17-22): panics — modelled as an
error — when the name is already registered; otherwise records the binding. -/
def registerTypeModel (reg : List (String × Nat)) (name : String) (fn : Nat) :
    Except String (List (String × Nat)) :=
  if (lookupFn name reg).isSome then
    .error "type registry: type with prefix already registered"
  else .ok ((name, fn) :: reg)

/-- GetUnmarshalFunc (lines 26-32): error for an unregistered name. -/
def getUnmarshalFuncModel (reg : List (String × Nat)) (name : String) :
    Except String Nat :=
  match lookupFn name reg with
  | some fn => .ok fn
  | none => .error "type registry: no type registered for prefix"

/-- Lookup in the index-map registry (static types identified by a number,
the image of reflect.TypeOf). -/
def lookupIM (t : Nat) : List (Nat × List (String × String)) →
    Option (List (String × String))
  | [] => none
  | (t2, im) :: rest => if t2 = t then some im else lookupIM t rest

/-- RegisterIndexMap (lines 52-59): unconditional map assignment — a second
registration silently replaces the first; no error path exists. -/
def registerIndexMapModel (reg : List (Nat × List (String × String))) (t : Nat)
    (im : List (String × String)) : List (Nat × List (String × String)) :=
  (t, im) :: reg

/-- GetIndexMap (lines 62-70): returns the map and a found flag — an
unregistered type yields the none flag, not an error value. -/
def getIndexMapModel (reg : List (Nat × List (String × String))) (t : Nat) :
    Option (List (String × String)) :=
  lookupIM t reg

/-- C10 counterexample.  A second RegisterIndexMap under the same static
type succeeds and silently replaces the first registration — the read
afterwards returns the second map and no error was ever produced — whereas
the claim requires the second registration to fail with a
duplicate-registration error for both registries. -/
theorem C10_counterexample :
    getIndexMapModel
        (registerIndexMapModel
          (registerIndexMapModel [] 0 [("PK", "{ID}"), ("SK", "{ID}")])
          0 [("PK", "USER#{ID}"), ("SK", "USER#{ID}")]) 0 =
      some [("PK", "USER#{ID}"), ("SK", "USER#{ID}")] ∧
    some [("PK", "USER#{ID}"), ("SK", "USER#{ID}")] ≠
      some [("PK", "{ID}"), ("SK", "{ID}")] := by
  constructor
  · rfl
  · decide

/-- C10 (amended).  The type-name registry refuses a second registration
under the same name with a fatal duplicate-registration panic and its reads
fail with an unregistered-type error; the index-map registry, however,
silently replaces on re-registration (the latest map wins and no error is
possible), and its reads signal an unregistered type through a not-found
flag rather than an error. -/
theorem C10_registry_semantics :
    (∀ (reg reg2 : List (String × Nat)) (name : String) (f g : Nat),
        registerTypeModel reg name f = .ok reg2 →
        registerTypeModel reg2 name g =
          .error "type registry: type with prefix already registered")
  ∧ (∀ (reg : List (String × Nat)) (name : String),
        lookupFn name reg = none →
        getUnmarshalFuncModel reg name =
          .error "type registry: no type registered for prefix")
  ∧ (∀ (reg : List (Nat × List (String × String))) (t : Nat)
        (im : List (String × String)),
        getIndexMapModel (registerIndexMapModel reg t im) t = some im)
  ∧ (∀ (reg : List (Nat × List (String × String))) (t : Nat),
        lookupIM t reg = none → getIndexMapModel reg t = none) := by
  refine ⟨?_, ?_, ?_, ?_⟩
  · intro reg reg2 name f g hok
    unfold registerTypeModel at hok ⊢
    by_cases h : (lookupFn name reg).isSome
    · rw [if_pos h] at hok
      exact absurd hok (by simp)
    · rw [if_neg h] at hok
      have hreg2 : reg2 = (name, f) :: reg := by
        injection hok with h2
        exact h2.symm
      subst hreg2
      simp [lookupFn]
  · intro reg name h
    unfold getUnmarshalFuncModel
    rw [h]
  · intro reg t im
    unfold getIndexMapModel registerIndexMapModel lookupIM
    simp
  · intro reg t h
    unfold getIndexMapModel
    exact h

/-- Witness for the amended C10: registering RatingSystem twice fails the
second time; the unregistered read errs; the index-map registry replaces. -/
theorem C10_witness :
    registerTypeModel [("RatingSystem", 1)] "RatingSystem" 2 =
      .error "type registry: type with prefix already registered" ∧
    getUnmarshalFuncModel [] "RatingSystem" =
      .error "type registry: no type registered for prefix" ∧
    getIndexMapModel (registerIndexMapModel [] 0 [("PK", "{ID}")]) 0 =
      some [("PK", "{ID}")] :=
  ⟨C10_registry_semantics.1 [] [("RatingSystem", 1)] "RatingSystem" 1 2 rfl,
   C10_registry_semantics.2.1 [] "RatingSystem" (by decide),
   C10_registry_semantics.2.2.1 [] 0 [("PK", "{ID}")]⟩

end EntityStore
